import Mathlib

/-!
Shallow embedding of the customer-revenue dashboard (`src/main.py`).

Numbers are modelled as `ℚ`; a pandas missing value (`NaN`) is `Option.none`.
Comparisons against a missing value are `false`, mirroring IEEE comparisons
with `NaN`, and `classify` sends a missing cumulative percent to segment `C`
exactly as the Python `if row <= 80 … elif row <= 95 … else "C"` does on `NaN`.
-/

namespace RevenueAnalyser

/-- One parsed row of the cleaned dataframe: `Customer Name`, `Sales`,
`Sales With Tax`.  A `none` field is a pandas missing value. -/
structure Row where
  name : Option String
  sales : Option ℚ
  salesWithTax : Option ℚ
deriving DecidableEq, Repr

/-- One raw row of the uploaded sheet after `astype(str)`: the numeric cells
are arbitrary strings, the name cell is either present or missing. -/
structure RawRow where
  name : Option String
  sales : String
  salesWithTax : String
deriving DecidableEq, Repr

/-- The fatal validation failure of `load_data` (`st.error` + `st.stop`). -/
inductive FormatError where
  | formatError
deriving DecidableEq, Repr

/-- ABC segment labels produced by `classify`. -/
inductive Segment where
  | A
  | B
  | C
deriving DecidableEq, Repr

/-! ### Loader / cleaner (`load_data`, src/main.py lines 16-50) -/

/-- Surrounding-whitespace removal on the character list. -/
def trimChars (cs : List Char) : List Char :=
  ((cs.dropWhile Char.isWhitespace).reverse.dropWhile Char.isWhitespace).reverse

/-- Python `str.strip()` on a string, character-list based. -/
def trimStr (s : String) : String :=
  ⟨trimChars s.data⟩

/-- Python `str.lower()` on a string, character-wise (ASCII, which covers
every string the claims mention). -/
def lowerStr (s : String) : String :=
  ⟨s.data.map Char.toLower⟩

/-- Column auto-mapping of `load_data`: a column whose lower-cased name is
exactly `name` / `sales` / `sales with tax` is renamed; anything else is
kept unchanged. -/
def renameColumn (c : String) : String :=
  if lowerStr c = "name" then "Customer Name"
  else if lowerStr c = "sales" then "Sales"
  else if lowerStr c = "sales with tax" then "Sales With Tax"
  else c

/-- `df.columns.str.strip()` followed by the rename mapping. -/
def normalizeColumns (cols : List String) : List String :=
  cols.map (fun c => renameColumn (trimStr c))

/-- The required column set of `load_data`. -/
def expectedColumns : Finset String :=
  {"Customer Name", "Sales", "Sales With Tax"}

/-- Removal of the currency symbol and the thousands separators:
`.str.replace("₹", "").str.replace(",", "")`. -/
def stripCurrency (s : String) : String :=
  ⟨s.data.filter (fun c => !(c == '₹' || c == ','))⟩

/-- Value of a digit string, most significant first. -/
def digitsToNat (cs : List Char) : Nat :=
  cs.foldl (fun a c => a * 10 + (c.toNat - 48)) 0

/-- Unsigned decimal literal: digits with at most one decimal point and at
least one digit. -/
def parseUnsigned? (cs : List Char) : Option ℚ :=
  match cs.span (fun c => !(c == '.')) with
  | (ip, []) =>
      if ip ≠ [] ∧ ip.all Char.isDigit then some (digitsToNat ip : ℚ) else none
  | (ip, _ :: fp) =>
      if (ip ≠ [] ∨ fp ≠ []) ∧ ip.all Char.isDigit ∧ fp.all Char.isDigit then
        some ((digitsToNat ip : ℚ) + (digitsToNat fp : ℚ) / (10 : ℚ) ^ fp.length)
      else none

/-- `pd.to_numeric(errors="coerce")` on a cell string, restricted to plain
signed decimal literals (scientific notation is out of scope of the claims):
an unparseable cell becomes a missing value, never an error. -/
def parseDecimal? (s : String) : Option ℚ :=
  match trimChars s.data with
  | '-' :: rest => (parseUnsigned? rest).map (fun q => -q)
  | '+' :: rest => parseUnsigned? rest
  | cs => parseUnsigned? cs

/-- Numeric cleaning of one cell of `Sales` / `Sales With Tax`
(src/main.py lines 42-46). -/
def parseMoney (s : String) : Option ℚ :=
  parseDecimal? (stripCurrency s)

/-- Numeric cleaning applied to one raw row (the name cell is untouched). -/
def parseRow (r : RawRow) : Row :=
  ⟨r.name, parseMoney r.sales, parseMoney r.salesWithTax⟩

/-- Row cleaning of `load_data` in source order: coerce the two numeric
columns, then drop rows with a missing `Customer Name`
(`df["Customer Name"].notna()`), then drop rows whose name lower-cases to
`"total"` (src/main.py lines 42-49). -/
def cleanRows (rows : List RawRow) : List Row :=
  ((rows.map parseRow).filter (fun r => r.name.isSome)).filter
    (fun r => !(r.name.map lowerStr == some "total"))

/-- The row-keeping predicate on a raw row, phrased on the raw data: the name
is present and does not case-insensitively equal `"total"`. -/
def rawKeep (r : RawRow) : Bool :=
  match r.name with
  | none => false
  | some n => !(lowerStr n == "total")

/-- `load_data`: validate the normalized column set, then clean the rows.
On a column mismatch the run is aborted (`st.stop`) with no partial output,
modelled as `Except.error`. -/
def loadData (cols : List String) (rows : List RawRow) :
    Except FormatError (List Row) :=
  if (normalizeColumns cols).toFinset = expectedColumns then
    Except.ok (cleanRows rows)
  else
    Except.error FormatError.formatError

/-! ### Sorting (`sort_values("Sales With Tax", ascending=False)`) -/

/-- Sort key of a row; only ever applied to rows whose `salesWithTax` is
present. -/
def keyQ (r : Row) : ℚ :=
  r.salesWithTax.getD 0

/-- Ascending comparison on present sort keys. -/
def rowAscLE (a b : Row) : Prop :=
  keyQ a ≤ keyQ b

instance : DecidableRel rowAscLE := fun a b =>
  inferInstanceAs (Decidable (keyQ a ≤ keyQ b))

instance : IsTotal Row rowAscLE :=
  ⟨fun a b => le_total (keyQ a) (keyQ b)⟩

instance : IsTrans Row rowAscLE :=
  ⟨fun _ _ _ h h₂ => le_trans h h₂⟩

/-- `df.sort_values("Sales With Tax", ascending=False)`.  pandas `nargsort`
handles `ascending=False` by reversing the non-missing values (and their
indices) BEFORE an ascending argsort, reversing the resulting indexer AFTER
it, and appending the missing-key rows at the end (`na_position="last"`).
The double reversal cancels on ties, so original tie order is preserved
whenever the underlying argsort is stable.  The ascending argsort is
modelled as a stable insertion sort, exact for numpy's `kind="quicksort"`
in its small-array insertion-sort regime. -/
def sortValuesDesc (l : List Row) : List Row :=
  (List.insertionSort rowAscLE (l.filter (fun r => r.salesWithTax.isSome)).reverse).reverse
    ++ l.filter (fun r => !r.salesWithTax.isSome)

/-- The intended descending row order: missing keys sort after every present
key, present keys descend. -/
def rowLE (a b : Row) : Prop :=
  match a.salesWithTax, b.salesWithTax with
  | some x, some y => y ≤ x
  | some _, none => True
  | none, some _ => False
  | none, none => True

/-! ### Ranking and pagination (src/main.py lines 69-94) -/

/-- `top_20 = df.sort_values(...).head(20)`. -/
def top20 (df : List Row) : List Row :=
  (sortValuesDesc df).take 20

/-- `scroll_df = df.sort_values("Sales With Tax", ascending=False)`. -/
def scrollDf (df : List Row) : List Row :=
  sortValuesDesc df

/-- `customers_per_page = 20`. -/
def customersPerPage : Nat := 20

/-- `total_pages = (len(scroll_df) + customers_per_page - 1) // customers_per_page`. -/
def totalPages (df : List Row) : Nat :=
  ((scrollDf df).length + customersPerPage - 1) / customersPerPage

/-- `paginated_df = scroll_df.iloc[start_idx:end_idx]` for the 1-based page
number, with `start_idx = (page_num - 1) * 20` and `end_idx = start_idx + 20`. -/
def paginatedDf (df : List Row) (pageNum : Nat) : List Row :=
  ((scrollDf df).drop ((pageNum - 1) * customersPerPage)).take customersPerPage

/-! ### Segmentation (src/main.py lines 121-132) -/

/-- `df_sorted["Sales With Tax"].sum()`: pandas sums skip missing values. -/
def totalSWT (l : List Row) : ℚ :=
  (l.filterMap (fun r => r.salesWithTax)).sum

/-- `df_sorted["Sales With Tax"].cumsum()`: a missing value stays missing in
the output and is skipped by the running sum. -/
def cumsum : ℚ → List Row → List (Row × Option ℚ)
  | _, [] => []
  | acc, r :: rs =>
    match r.salesWithTax with
    | some v => (r, some (acc + v)) :: cumsum (acc + v) rs
    | none => (r, none) :: cumsum acc rs

/-- `cumsum / total * 100`. -/
def pct (T x : ℚ) : ℚ :=
  x / T * 100

/-- The `classify` function of the source: `A` below 80 inclusive, `B` below
95 inclusive, else `C`.  On a missing cumulative percent both comparisons are
false (IEEE `NaN`), so the result is `C`. -/
def classify (c : Option ℚ) : Segment :=
  match c with
  | some x => if x ≤ 80 then Segment.A else if x ≤ 95 then Segment.B else Segment.C
  | none => Segment.C

/-- The ABC segmentation pipeline: sort descending, attach the cumulative
percent column, classify each row.  Each output entry is
(row, cumulative percent, segment). -/
def segRows (df : List Row) : List (Row × Option ℚ × Segment) :=
  (cumsum 0 (sortValuesDesc df)).map
    (fun rc =>
      (rc.1, rc.2.map (pct (totalSWT (sortValuesDesc df))),
        classify (rc.2.map (pct (totalSWT (sortValuesDesc df))))))

/-- Numeric rank of a segment, used to state monotonicity along the table. -/
def segOrd : Segment → Nat
  | Segment.A => 0
  | Segment.B => 1
  | Segment.C => 2

/-! ### Outlier detection (src/main.py lines 183-184) -/

/-- `df[df["Sales With Tax"] < low_revenue_threshold]`; a missing value
compares false. -/
def lowRevenue (df : List Row) (lo : ℚ) : List Row :=
  df.filter (fun r =>
    match r.salesWithTax with
    | some v => decide (v < lo)
    | none => false)

/-- `df[df["Sales With Tax"] > high_revenue_spike_threshold]`; a missing
value compares false. -/
def highSpike (df : List Row) (hi : ℚ) : List Row :=
  df.filter (fun r =>
    match r.salesWithTax with
    | some v => decide (hi < v)
    | none => false)

/-- `df["Sales With Tax"].mean()`: sum over count of the present values. -/
def meanSWT (df : List Row) : ℚ :=
  totalSWT df / ((df.filterMap (fun r => r.salesWithTax)).length : ℚ)

/-! ### Helper lemmas -/

theorem parseRow_name (r : RawRow) : (parseRow r).name = r.name := rfl

/-- The two name filters of `load_data`, applied after the numeric coercion,
drop exactly the raw rows rejected by `rawKeep`. -/
theorem cleanRows_eq (rows : List RawRow) :
    cleanRows rows = (rows.filter rawKeep).map parseRow := by
  unfold cleanRows
  rw [List.filter_filter, List.filter_map]
  congr 1
  apply List.filter_congr
  intro r _
  show (!((parseRow r).name.map lowerStr == some "total") && (parseRow r).name.isSome) = rawKeep r
  rw [parseRow_name]
  unfold rawKeep
  cases r.name <;> simp

/-- Concatenating the 20-element chunks of a list reproduces the list. -/
theorem join_chunks : ∀ (n : Nat) (l : List Row), (l.length + 19) / 20 = n →
    ((List.range n).map (fun k => (l.drop (k * 20)).take 20)).flatten = l := by
  intro n
  induction n with
  | zero =>
    intro l hl
    have h0 : l.length = 0 := by omega
    rw [List.eq_nil_of_length_eq_zero h0]
    simp
  | succ n ih =>
    intro l hl
    have h20 : ((l.drop 20).length + 19) / 20 = n := by
      rw [List.length_drop]
      omega
    rw [List.range_succ_eq_map, List.map_cons, List.flatten_cons, List.map_map]
    have hfun : ((fun k => (l.drop (k * 20)).take 20) ∘ Nat.succ) =
        (fun k => ((l.drop 20).drop (k * 20)).take 20) := by
      funext k
      simp only [Function.comp_apply, List.drop_drop]
      congr 2
      omega
    rw [hfun, ih (l.drop 20) h20]
    simp

/-- The sorted view is a permutation of the cleaned table. -/
theorem sortValuesDesc_perm (l : List Row) : (sortValuesDesc l).Perm l := by
  unfold sortValuesDesc
  refine List.Perm.trans ?_ (List.filter_append_perm (fun r => r.salesWithTax.isSome) l)
  exact List.Perm.append
    ((List.reverse_perm _).trans
      ((List.perm_insertionSort rowAscLE _).trans (List.reverse_perm _)))
    (List.Perm.refl _)

/-- Every row of the sorted prefix has a present sort key. -/
theorem isSome_of_mem_sorted_prefix {l : List Row} {r : Row}
    (h : r ∈ (List.insertionSort rowAscLE
        (l.filter (fun r => r.salesWithTax.isSome)).reverse).reverse) :
    r.salesWithTax.isSome := by
  rw [List.mem_reverse] at h
  have hm := (List.perm_insertionSort rowAscLE _).mem_iff.mp h
  rw [List.mem_reverse] at hm
  exact (List.mem_filter.mp hm).2

/-- The sorted view is non-increasing in `rowLE`: present keys descend and
missing-key rows come last. -/
theorem pairwise_sortValuesDesc (l : List Row) :
    List.Pairwise rowLE (sortValuesDesc l) := by
  unfold sortValuesDesc
  rw [List.pairwise_append]
  refine ⟨?_, ?_, ?_⟩
  · rw [List.pairwise_reverse]
    have hs := List.sorted_insertionSort rowAscLE
      (l.filter (fun r => r.salesWithTax.isSome)).reverse
    refine hs.imp_of_mem ?_
    intro a b ha hb hab
    have ha' := (List.mem_filter.mp (List.mem_reverse.mp
      ((List.perm_insertionSort rowAscLE _).mem_iff.mp ha))).2
    have hb' := (List.mem_filter.mp (List.mem_reverse.mp
      ((List.perm_insertionSort rowAscLE _).mem_iff.mp hb))).2
    obtain ⟨x, hx⟩ := Option.isSome_iff_exists.mp ha'
    obtain ⟨y, hy⟩ := Option.isSome_iff_exists.mp hb'
    have hk : keyQ a ≤ keyQ b := hab
    unfold keyQ at hk
    unfold rowLE
    rw [hx, hy] at hk ⊢
    simpa using hk
  · apply List.pairwise_of_forall_mem_list
    intro a ha b hb
    have ha' := (List.mem_filter.mp ha).2
    have hb' := (List.mem_filter.mp hb).2
    unfold rowLE
    rcases hna : a.salesWithTax with _ | v
    · rcases hnb : b.salesWithTax with _ | w
      · trivial
      · rw [hnb] at hb'
        simp at hb'
    · rw [hna] at ha'
      simp at ha'
  · intro a ha b hb
    have ha' := isSome_of_mem_sorted_prefix ha
    have hb' := (List.mem_filter.mp hb).2
    obtain ⟨x, hx⟩ := Option.isSome_iff_exists.mp ha'
    unfold rowLE
    rcases hnb : b.salesWithTax with _ | w
    · rw [hx]
      trivial
    · rw [hnb] at hb'
      simp at hb'

theorem totalSWT_cons_none {r : Row} {rest : List Row} (h : r.salesWithTax = none) :
    totalSWT (r :: rest) = totalSWT rest := by
  unfold totalSWT
  rw [List.filterMap_cons, h]

theorem totalSWT_cons_some {r : Row} {rest : List Row} {v : ℚ}
    (h : r.salesWithTax = some v) :
    totalSWT (r :: rest) = v + totalSWT rest := by
  unfold totalSWT
  rw [List.filterMap_cons, h, List.sum_cons]

theorem totalSWT_nonpos {l : List Row}
    (h : ∀ x ∈ l, ∀ u : ℚ, x.salesWithTax = some u → u ≤ 0) : totalSWT l ≤ 0 := by
  induction l with
  | nil => simp [totalSWT]
  | cons x xs ih =>
    have hxs : totalSWT xs ≤ 0 := ih (fun y hy => h y (List.mem_cons_of_mem x hy))
    cases hx : x.salesWithTax with
    | none => rw [totalSWT_cons_none hx]; exact hxs
    | some u =>
      rw [totalSWT_cons_some hx]
      have hu := h x (List.mem_cons_self x xs) u hx
      linarith

theorem totalSWT_perm {l l' : List Row} (h : l.Perm l') : totalSWT l = totalSWT l' := by
  unfold totalSWT
  exact (h.filterMap (fun r => r.salesWithTax)).sum_eq

theorem segOrd_le_two (s : Segment) : segOrd s ≤ 2 := by
  cases s <;> simp [segOrd]

theorem classify_some (x : ℚ) :
    classify (some x) =
      if x ≤ 80 then Segment.A else if x ≤ 95 then Segment.B else Segment.C := rfl

theorem classify_none : classify none = Segment.C := rfl

theorem cumsum_cons_some {r : Row} {v : ℚ} (acc : ℚ) (rest : List Row)
    (h : r.salesWithTax = some v) :
    cumsum acc (r :: rest) = (r, some (acc + v)) :: cumsum (acc + v) rest := by
  simp [cumsum, h]

theorem cumsum_cons_none {r : Row} (acc : ℚ) (rest : List Row)
    (h : r.salesWithTax = none) :
    cumsum acc (r :: rest) = (r, none) :: cumsum acc rest := by
  simp [cumsum, h]

theorem segOrd_classify_mono {x y : ℚ} (h : x ≤ y) :
    segOrd (classify (some x)) ≤ segOrd (classify (some y)) := by
  rw [classify_some, classify_some]
  split_ifs <;> simp [segOrd] <;> linarith

theorem classify_of_gt95 {x : ℚ} (h : 95 < x) : classify (some x) = Segment.C := by
  rw [classify_some, if_neg (by linarith), if_neg (by linarith)]

/-- One step of the cumulative-percent walk cannot decrease the segment rank:
`c` is the running sum so far, `v'` the next (sorted) value, `T` the total.
The side conditions come from the descending sort: a positive next value
forces a positive running sum, and a negative next value means every later
value is negative, so the total is already below `c + v'`. -/
theorem segOrd_pct_step {T c v' : ℚ} (h1 : 0 < v' → 0 < c) (h2 : v' < 0 → T ≤ c + v') :
    segOrd (classify (some (pct T c))) ≤ segOrd (classify (some (pct T (c + v')))) := by
  rcases lt_trichotomy T 0 with hT | hT | hT
  · rcases le_or_lt v' 0 with hv | hv
    · apply segOrd_classify_mono
      unfold pct
      rw [div_mul_eq_mul_div, div_mul_eq_mul_div, div_eq_mul_inv, div_eq_mul_inv]
      have hTinv : T⁻¹ < 0 := inv_lt_zero.mpr hT
      exact mul_le_mul_of_nonpos_right (by linarith) (le_of_lt hTinv)
    · have hc := h1 hv
      have hp : pct T c ≤ 80 := by
        unfold pct
        have hneg : c / T < 0 := div_neg_of_pos_of_neg hc hT
        nlinarith
      have hA : classify (some (pct T c)) = Segment.A := by
        rw [classify_some, if_pos hp]
      rw [hA]
      exact Nat.zero_le _
  · subst hT
    unfold pct
    simp
  · rcases le_or_lt 0 v' with hv | hv
    · apply segOrd_classify_mono
      unfold pct
      rw [div_mul_eq_mul_div, div_mul_eq_mul_div, div_le_div_iff hT hT]
      nlinarith
    · have hcv := h2 hv
      have h100 : (100:ℚ) ≤ pct T (c + v') := by
        unfold pct
        rw [div_mul_eq_mul_div, le_div_iff hT]
        nlinarith
      have hC : classify (some (pct T (c + v'))) = Segment.C := classify_of_gt95 (by linarith)
      rw [hC]
      exact segOrd_le_two _

/-- Along a `rowLE`-sorted tail, the classified cumulative percents have
non-decreasing segment rank.  `acc` is the running sum accumulated so far and
the two side invariants record that `T` is the grand total and that a
positive upcoming value forces a non-negative accumulator. -/
theorem chain_cumsum (T : ℚ) (s : List Row) : ∀ acc : ℚ,
    List.Pairwise rowLE s →
    T = acc + totalSWT s →
    (∀ r ∈ s, ∀ v : ℚ, r.salesWithTax = some v → 0 < v → 0 ≤ acc) →
    List.Chain' (fun p q : Row × Option ℚ =>
      segOrd (classify (p.2.map (pct T))) ≤ segOrd (classify (q.2.map (pct T))))
      (cumsum acc s) := by
  induction s with
  | nil =>
    intro acc _ _ _
    simp [cumsum]
  | cons r rest ih =>
    intro acc hpair hT hacc
    rw [List.pairwise_cons] at hpair
    obtain ⟨hr, hpair'⟩ := hpair
    cases hsw : r.salesWithTax with
    | none =>
      have hrestnone : ∀ x ∈ rest, x.salesWithTax = none := by
        intro x hx
        have hrx := hr x hx
        unfold rowLE at hrx
        rw [hsw] at hrx
        cases hxx : x.salesWithTax with
        | none => rfl
        | some w =>
          rw [hxx] at hrx
          exact hrx.elim
      rw [cumsum_cons_none acc rest hsw, List.chain'_cons']
      constructor
      · intro y hy
        cases rest with
        | nil => simp [cumsum] at hy
        | cons x rest' =>
          have hx := hrestnone x (List.mem_cons_self x rest')
          rw [cumsum_cons_none acc rest' hx] at hy
          simp only [List.head?_cons, Option.mem_def, Option.some.injEq] at hy
          rw [← hy]
      · apply ih acc hpair'
        · rw [hT, totalSWT_cons_none hsw]
        · intro x hx v hv
          rw [hrestnone x hx] at hv
          exact Option.noConfusion hv
    | some v =>
      rw [cumsum_cons_some acc rest hsw, List.chain'_cons']
      constructor
      · intro y hy
        cases rest with
        | nil => simp [cumsum] at hy
        | cons x rest' =>
          have hxmem : x ∈ r :: x :: rest' := List.mem_cons_of_mem r (List.mem_cons_self x rest')
          cases hxx : x.salesWithTax with
          | none =>
            rw [cumsum_cons_none (acc + v) rest' hxx] at hy
            simp only [List.head?_cons, Option.mem_def, Option.some.injEq] at hy
            rw [← hy]
            simp only [Option.map_none', Option.map_some']
            rw [classify_none]
            exact segOrd_le_two _
          | some w =>
            rw [cumsum_cons_some (acc + v) rest' hxx] at hy
            simp only [List.head?_cons, Option.mem_def, Option.some.injEq] at hy
            rw [← hy]
            simp only [Option.map_some']
            apply segOrd_pct_step
            · intro hw
              have hacc0 := hacc x hxmem w hxx hw
              have hwv : w ≤ v := by
                have hrx := hr x (List.mem_cons_self x rest')
                unfold rowLE at hrx
                rw [hsw, hxx] at hrx
                exact hrx
              linarith
            · intro hw
              have hrest' : totalSWT rest' ≤ 0 := by
                apply totalSWT_nonpos
                intro z hz u hu
                have hxz := (List.pairwise_cons.mp hpair').1 z hz
                unfold rowLE at hxz
                rw [hxx, hu] at hxz
                linarith
              have hTexp : T = acc + (v + (w + totalSWT rest')) := by
                rw [hT, totalSWT_cons_some hsw, totalSWT_cons_some hxx]
              linarith
      · apply ih (acc + v) hpair'
        · rw [hT, totalSWT_cons_some hsw]
          ring
        · intro x hx u hu hupos
          have hacc0 := hacc x (List.mem_cons_of_mem r hx) u hu hupos
          have huv : u ≤ v := by
            have hrx := hr x hx
            unfold rowLE at hrx
            rw [hsw, hu] at hrx
            exact hrx
          linarith

theorem cumsum_cons_ne_nil (acc : ℚ) (x : Row) (rest : List Row) :
    cumsum acc (x :: rest) ≠ [] := by
  cases hx : x.salesWithTax <;> simp [cumsum, hx]

/-- On an all-present list the last cumulative sum is the accumulator plus
the total. -/
theorem cumsum_getLast_allSome (l : List Row) : ∀ acc : ℚ, l ≠ [] →
    (∀ r ∈ l, r.salesWithTax.isSome) →
    ((cumsum acc l).map (fun p => p.2)).getLast? = some (some (acc + totalSWT l)) := by
  induction l with
  | nil =>
    intro acc h _
    exact absurd rfl h
  | cons r rest ih =>
    intro acc _ hall
    have hr := hall r (List.mem_cons_self r rest)
    obtain ⟨v, hv⟩ := Option.isSome_iff_exists.mp hr
    cases rest with
    | nil =>
      simp [cumsum, hv, totalSWT_cons_some hv, totalSWT]
    | cons x rest' =>
      rw [cumsum_cons_some acc (x :: rest') hv, List.map_cons, List.getLast?_cons]
      have hih := ih (acc + v) (by simp)
        (fun y hy => hall y (List.mem_cons_of_mem r hy))
      rw [hih]
      simp only [Option.getD_some, Option.some.injEq]
      rw [totalSWT_cons_some hv]
      ring_nf

/-! ### Claim theorems -/

/-- Claim C1: after stripping and case-insensitively renaming the columns
("name" to "Customer Name", "sales" to "Sales", "sales with tax" to
"Sales With Tax"), `load_data` succeeds if and only if the resulting column
set is exactly the expected set; on any other column set it fails with a
`FormatError` and produces no partial output. -/
theorem claim1_load_data_validation (cols : List String) (rows : List RawRow) :
    ((∃ t, loadData cols rows = Except.ok t) ↔
      (normalizeColumns cols).toFinset = expectedColumns) ∧
    ((normalizeColumns cols).toFinset ≠ expectedColumns →
      loadData cols rows = Except.error FormatError.formatError) := by
  unfold loadData
  constructor
  · constructor
    · rintro ⟨t, ht⟩
      by_contra h
      rw [if_neg h] at ht
      exact Except.noConfusion ht
    · intro h
      rw [if_pos h]
      exact ⟨cleanRows rows, rfl⟩
  · intro h
    rw [if_neg h]

/-- Witness for C1 at a concrete invalid header. -/
theorem claim1_load_data_validation_witness :
    loadData ["Foo"] [] = Except.error FormatError.formatError :=
  (claim1_load_data_validation ["Foo"] []).2 (by decide)

/-- Claim C2: concatenating pages 1 through `totalPages` (page `N` is the
slice of the descending-sorted table from `(N-1)*20` to `N*20`) reproduces
the full descending-sorted table exactly, every row appearing exactly once. -/
theorem claim2_pagination_covers (df : List Row) :
    ((List.range (totalPages df)).map (fun k => paginatedDf df (k + 1))).flatten
      = scrollDf df := by
  have h : (fun k => paginatedDf df (k + 1)) =
      (fun k => ((scrollDf df).drop (k * 20)).take 20) := by
    funext k
    unfold paginatedDf customersPerPage
    simp
  rw [h]
  exact join_chunks (totalPages df) (scrollDf df) rfl

/-- Claim C7: the low-revenue view holds exactly the records with
`salesWithTax` strictly below the low threshold, the spike view exactly those
strictly above the high threshold; with threshold 5000 a 4999 record is in
the low set and a 5000 record is not; an empty result is an ordinary value,
not an error. -/
theorem claim7_outlier_views :
    (∀ (df : List Row) (lo : ℚ) (r : Row),
        r ∈ lowRevenue df lo ↔ r ∈ df ∧ ∃ v, r.salesWithTax = some v ∧ v < lo) ∧
    (∀ (df : List Row) (hi : ℚ) (r : Row),
        r ∈ highSpike df hi ↔ r ∈ df ∧ ∃ v, r.salesWithTax = some v ∧ hi < v) ∧
    (⟨some "L", none, some 4999⟩ : Row) ∈
      lowRevenue [⟨some "L", none, some 4999⟩, ⟨some "M", none, some 5000⟩] 5000 ∧
    (⟨some "M", none, some 5000⟩ : Row) ∉
      lowRevenue [⟨some "L", none, some 4999⟩, ⟨some "M", none, some 5000⟩] 5000 ∧
    lowRevenue [⟨some "M", none, some 5000⟩] 5000 = [] := by
  refine ⟨?_, ?_, ?_, ?_, ?_⟩
  · intro df lo r
    unfold lowRevenue
    rw [List.mem_filter]
    cases h : r.salesWithTax <;> simp [h]
  · intro df hi r
    unfold highSpike
    rw [List.mem_filter]
    cases h : r.salesWithTax <;> simp [h]
  · norm_num [lowRevenue]
  · norm_num [lowRevenue]
  · norm_num [lowRevenue]

/-- Claim C8: numeric cleaning strips the currency symbol and the
thousands-separator commas and then parses; an unparseable cell becomes a
missing value and never fails the load (a column-valid file always loads),
and the currency string with the rupee sign parses to 1200.50. -/
theorem claim8_numeric_cleaning :
    (∀ (cols : List String) (rows : List RawRow),
        (normalizeColumns cols).toFinset = expectedColumns →
        loadData cols rows = Except.ok (cleanRows rows)) ∧
    parseMoney "₹1,200.50" = some 1200.5 ∧
    parseMoney "abc" = none ∧
    parseRow ⟨some "Z", "abc", "₹1,200.50"⟩ = ⟨some "Z", none, some 1200.5⟩ := by
  refine ⟨?_, ?_, ?_, ?_⟩
  · intro cols rows h
    unfold loadData
    rw [if_pos h]
  · simp +decide [parseMoney, parseDecimal?, stripCurrency, trimChars, parseUnsigned?,
      digitsToNat]
    norm_num
  · simp +decide [parseMoney, parseDecimal?, stripCurrency, trimChars, parseUnsigned?,
      digitsToNat]
  · simp +decide [parseRow, parseMoney, parseDecimal?, stripCurrency, trimChars,
      parseUnsigned?, digitsToNat]
    norm_num

/-- Witness for C8 at a concrete valid header with an unparseable cell. -/
theorem claim8_numeric_cleaning_witness :
    loadData ["Name", "Sales", "Sales With Tax"] [⟨some "Z", "abc", "oops"⟩] =
      Except.ok (cleanRows [⟨some "Z", "abc", "oops"⟩]) :=
  claim8_numeric_cleaning.1 ["Name", "Sales", "Sales With Tax"]
    [⟨some "Z", "abc", "oops"⟩] (by decide)

/-- Claim C9: cleaning drops exactly the rows with a missing name or a name
that case-insensitively equals "total"; on the Alice/Bob/TOTAL scenario it
keeps Alice and Bob, drops TOTAL, and the total and mean revenue with tax
are 180 and 90. -/
theorem claim9_cleaning_drops :
    (∀ rows : List RawRow, cleanRows rows = (rows.filter rawKeep).map parseRow) ∧
    cleanRows [⟨some "Alice", "100", "120"⟩, ⟨some "Bob", "50", "60"⟩,
        ⟨some "TOTAL", "150", "180"⟩] =
      [⟨some "Alice", some 100, some 120⟩, ⟨some "Bob", some 50, some 60⟩] ∧
    totalSWT (cleanRows [⟨some "Alice", "100", "120"⟩, ⟨some "Bob", "50", "60"⟩,
        ⟨some "TOTAL", "150", "180"⟩]) = 180 ∧
    meanSWT (cleanRows [⟨some "Alice", "100", "120"⟩, ⟨some "Bob", "50", "60"⟩,
        ⟨some "TOTAL", "150", "180"⟩]) = 90 := by
  have hscen : cleanRows [⟨some "Alice", "100", "120"⟩, ⟨some "Bob", "50", "60"⟩,
      ⟨some "TOTAL", "150", "180"⟩] =
      [⟨some "Alice", some 100, some 120⟩, ⟨some "Bob", some 50, some 60⟩] := by
    simp +decide [cleanRows, parseRow, parseMoney, parseDecimal?, stripCurrency,
      trimChars, parseUnsigned?, digitsToNat, lowerStr]
  refine ⟨cleanRows_eq, hscen, ?_, ?_⟩
  · rw [hscen]
    norm_num [totalSWT, List.filterMap_cons]
  · rw [hscen]
    norm_num [meanSWT, totalSWT, List.filterMap_cons]

/-- Claim C10: whether a row survives cleaning depends only on its name
cell; a kept row with unparseable numeric cells is retained with missing
values, and cleaning preserves the relative order of the retained rows. -/
theorem claim10_cleaning_name_only :
    (∀ r₁ r₂ : RawRow, r₁.name = r₂.name →
        (cleanRows [r₁]).length = (cleanRows [r₂]).length) ∧
    (∀ (rows : List RawRow) (r : RawRow), r ∈ rows → rawKeep r = true →
        parseRow r ∈ cleanRows rows) ∧
    cleanRows [⟨some "Z", "garbage", "???"⟩] = [⟨some "Z", none, none⟩] ∧
    (∀ rows : List RawRow, List.Sublist (cleanRows rows) (rows.map parseRow)) := by
  refine ⟨?_, ?_, ?_, ?_⟩
  · intro r₁ r₂ h
    rw [cleanRows_eq, cleanRows_eq]
    have hk : rawKeep r₁ = rawKeep r₂ := by
      unfold rawKeep
      rw [h]
    simp [List.filter, hk]
    cases rawKeep r₂ <;> simp
  · intro rows r hr hk
    rw [cleanRows_eq]
    exact List.mem_map_of_mem parseRow (List.mem_filter.2 ⟨hr, hk⟩)
  · simp +decide [cleanRows, parseRow, parseMoney, parseDecimal?, stripCurrency,
      trimChars, parseUnsigned?, digitsToNat, lowerStr]
  · intro rows
    rw [cleanRows_eq]
    exact (List.filter_sublist rows).map parseRow

/-- Witness for C10 at concrete rows. -/
theorem claim10_cleaning_name_only_witness :
    (cleanRows [⟨some "A", "1", "2"⟩]).length =
        (cleanRows [⟨some "A", "x", "y"⟩]).length ∧
    parseRow ⟨some "B", "7", "8"⟩ ∈ cleanRows [⟨some "B", "7", "8"⟩] :=
  ⟨claim10_cleaning_name_only.1 ⟨some "A", "1", "2"⟩ ⟨some "A", "x", "y"⟩ rfl,
    claim10_cleaning_name_only.2.1 [⟨some "B", "7", "8"⟩] ⟨some "B", "7", "8"⟩
      (List.mem_singleton.2 rfl) (by decide)⟩

/-- Claim C4: in the segmented table, a record is `A` exactly when its
cumulative percent is at most 80, `B` exactly when it is above 80 and at
most 95, and `C` otherwise (above 95, or a missing cumulative percent,
which the Python comparisons on NaN send to the final branch); a record at
exactly cumulative 80 is `A` and one at 80.01 is `B`. -/
theorem claim4_classification_bands :
    (∀ (df : List Row) (t : Row × Option ℚ × Segment), t ∈ segRows df →
        ((t.2.2 = Segment.A ↔ ∃ x, t.2.1 = some x ∧ x ≤ 80) ∧
         (t.2.2 = Segment.B ↔ ∃ x, t.2.1 = some x ∧ 80 < x ∧ x ≤ 95) ∧
         (t.2.2 = Segment.C ↔ (t.2.1 = none ∨ ∃ x, t.2.1 = some x ∧ 95 < x)))) ∧
    (segRows [⟨some "H", none, some 80⟩, ⟨some "I", none, some 20⟩]).map
        (fun t => t.2.1) = [some 80, some 100] ∧
    (segRows [⟨some "H", none, some 80⟩, ⟨some "I", none, some 20⟩]).map
        (fun t => t.2.2) = [Segment.A, Segment.C] ∧
    (segRows [⟨some "J", none, some 80.01⟩, ⟨some "K", none, some 19.99⟩]).map
        (fun t => t.2.1) = [some 80.01, some 100] ∧
    (segRows [⟨some "J", none, some 80.01⟩, ⟨some "K", none, some 19.99⟩]).map
        (fun t => t.2.2) = [Segment.B, Segment.C] := by
  refine ⟨?_, ?_, ?_, ?_, ?_⟩
  · intro df t ht
    unfold segRows at ht
    rw [List.mem_map] at ht
    obtain ⟨rc, _, rfl⟩ := ht
    cases hc : rc.2.map (pct (totalSWT (sortValuesDesc df))) with
    | none =>
      dsimp only
      rw [classify_none]
      refine ⟨?_, ?_, ?_⟩
      · simp
      · simp
      · simp
    | some x =>
      dsimp only
      rw [classify_some]
      split_ifs with h1 h2
      · refine ⟨?_, ?_, ?_⟩
        · simp only [true_iff]
          exact ⟨x, rfl, h1⟩
        · simp only [false_iff, not_exists]
          rintro y ⟨hy, hy80, _⟩
          rw [Option.some.injEq] at hy
          subst hy
          linarith
        · simp only [false_iff, not_or, not_exists]
          refine ⟨by simp, ?_⟩
          rintro y ⟨hy, hy95⟩
          rw [Option.some.injEq] at hy
          subst hy
          linarith
      · refine ⟨?_, ?_, ?_⟩
        · simp only [false_iff, not_exists]
          rintro y ⟨hy, hy80⟩
          rw [Option.some.injEq] at hy
          subst hy
          exact h1 hy80
        · simp only [true_iff]
          exact ⟨x, rfl, lt_of_not_le h1, h2⟩
        · simp only [false_iff, not_or, not_exists]
          refine ⟨by simp, ?_⟩
          rintro y ⟨hy, hy95⟩
          rw [Option.some.injEq] at hy
          subst hy
          linarith
      · refine ⟨?_, ?_, ?_⟩
        · simp only [false_iff, not_exists]
          rintro y ⟨hy, hy80⟩
          rw [Option.some.injEq] at hy
          subst hy
          exact h1 hy80
        · simp only [false_iff, not_exists]
          rintro y ⟨hy, _, hy95⟩
          rw [Option.some.injEq] at hy
          subst hy
          exact h2 hy95
        · simp only [true_iff]
          exact Or.inr ⟨x, rfl, lt_of_not_le h2⟩
  · norm_num [segRows, sortValuesDesc, List.insertionSort, List.orderedInsert, rowAscLE,
      keyQ, cumsum, totalSWT, pct, classify, List.filterMap_cons]
  · norm_num [segRows, sortValuesDesc, List.insertionSort, List.orderedInsert, rowAscLE,
      keyQ, cumsum, totalSWT, pct, classify, List.filterMap_cons]
  · norm_num [segRows, sortValuesDesc, List.insertionSort, List.orderedInsert, rowAscLE,
      keyQ, cumsum, totalSWT, pct, classify, List.filterMap_cons]
  · norm_num [segRows, sortValuesDesc, List.insertionSort, List.orderedInsert, rowAscLE,
      keyQ, cumsum, totalSWT, pct, classify, List.filterMap_cons]

/-- Witness for C4 at a one-row table whose single record has cumulative
percent 100 and segment `C`. -/
theorem claim4_classification_bands_witness :
    (Segment.C = Segment.A ↔ ∃ x, (some (100:ℚ)) = some x ∧ x ≤ 80) ∧
    (Segment.C = Segment.B ↔ ∃ x, (some (100:ℚ)) = some x ∧ 80 < x ∧ x ≤ 95) ∧
    (Segment.C = Segment.C ↔
      ((some (100:ℚ)) = none ∨ ∃ x, (some (100:ℚ)) = some x ∧ 95 < x)) := by
  have hseg : segRows [⟨some "X", none, some 10⟩] =
      [(⟨some "X", none, some 10⟩, some 100, Segment.C)] := by
    norm_num [segRows, sortValuesDesc, List.insertionSort, List.orderedInsert, rowAscLE,
      keyQ, cumsum, totalSWT, pct, classify, List.filterMap_cons]
  have h := claim4_classification_bands.1 [⟨some "X", none, some 10⟩]
    (⟨some "X", none, some 10⟩, some 100, Segment.C)
    (by rw [hseg]; exact List.mem_singleton.2 rfl)
  exact h

/-- Claim C5: every segment is one of A, B, C, and along the
descending-revenue order the segment sequence is monotonically
non-decreasing (every A row precedes every B row, every B row precedes
every C row). -/
theorem claim5_segment_monotone (df : List Row) :
    (∀ t ∈ segRows df, t.2.2 = Segment.A ∨ t.2.2 = Segment.B ∨ t.2.2 = Segment.C) ∧
    List.Chain' (fun a b : Row × Option ℚ × Segment =>
      segOrd a.2.2 ≤ segOrd b.2.2) (segRows df) := by
  constructor
  · intro t _
    rcases t with ⟨r, c, s⟩
    cases s
    · exact Or.inl rfl
    · exact Or.inr (Or.inl rfl)
    · exact Or.inr (Or.inr rfl)
  · unfold segRows
    rw [List.chain'_map]
    apply chain_cumsum (totalSWT (sortValuesDesc df)) (sortValuesDesc df) 0
      (pairwise_sortValuesDesc df) (zero_add _).symm
    intro r _ v _ _
    exact le_refl 0

/-- Witness for C5 at a concrete one-row table. -/
theorem claim5_segment_monotone_witness :
    Segment.C = Segment.A ∨ Segment.C = Segment.B ∨ Segment.C = Segment.C := by
  have hseg : segRows [⟨some "W", none, some 4⟩] =
      [(⟨some "W", none, some 4⟩, some 100, Segment.C)] := by
    norm_num [segRows, sortValuesDesc, List.insertionSort, List.orderedInsert, rowAscLE,
      keyQ, cumsum, totalSWT, pct, classify, List.filterMap_cons]
  have h := (claim5_segment_monotone [⟨some "W", none, some 4⟩]).1
    (⟨some "W", none, some 4⟩, some 100, Segment.C)
    (by rw [hseg]; exact List.mem_singleton.2 rfl)
  exact h

/-- Counterexample to C6: a non-empty cleaned table with non-zero total
whose last record in descending order has a missing `salesWithTax`.  pandas
sorts missing keys last and their cumulative percent is `NaN`, so the last
cumulative percent is missing, not 100 (within any tolerance). -/
theorem claim6_last_percent_counterexample :
    ([⟨some "X", some 5, some 5⟩, ⟨some "Y", none, none⟩] : List Row) ≠ [] ∧
    totalSWT [⟨some "X", some 5, some 5⟩, ⟨some "Y", none, none⟩] ≠ 0 ∧
    ((segRows [⟨some "X", some 5, some 5⟩, ⟨some "Y", none, none⟩]).map
        (fun t => t.2.1)).getLast? = some none := by
  refine ⟨by simp, ?_, ?_⟩
  · norm_num [totalSWT, List.filterMap_cons]
  · norm_num [segRows, sortValuesDesc, List.insertionSort, List.orderedInsert, rowAscLE,
      keyQ, cumsum, totalSWT, pct, classify, List.filterMap_cons]

/-- Claim C6 (amended): for every non-empty cleaned table all of whose
`salesWithTax` values are present, with non-zero total, the cumulative
percent of the last record in descending order is exactly 100. -/
theorem claim6_last_percent_amended (df : List Row) (hne : df ≠ [])
    (hall : ∀ r ∈ df, r.salesWithTax.isSome) (hT : totalSWT df ≠ 0) :
    ((segRows df).map (fun t => t.2.1)).getLast? = some (some 100) := by
  have hperm := sortValuesDesc_perm df
  have hSall : ∀ r ∈ sortValuesDesc df, r.salesWithTax.isSome :=
    fun r hr => hall r (hperm.mem_iff.mp hr)
  have hSne : sortValuesDesc df ≠ [] := by
    intro h
    apply hne
    have := hperm.length_eq
    rw [h] at this
    exact List.eq_nil_of_length_eq_zero this.symm
  have hTS : totalSWT (sortValuesDesc df) = totalSWT df := totalSWT_perm hperm
  have hmaps : (segRows df).map (fun t => t.2.1) =
      ((cumsum 0 (sortValuesDesc df)).map (fun p => p.2)).map
        (Option.map (pct (totalSWT (sortValuesDesc df)))) := by
    unfold segRows
    rw [List.map_map, List.map_map]
    rfl
  rw [hmaps, List.getLast?_map,
    cumsum_getLast_allSome (sortValuesDesc df) 0 hSne hSall]
  simp only [Option.map_some', Option.some.injEq, zero_add]
  rw [hTS]
  unfold pct
  rw [div_self hT]
  norm_num

/-- Witness for C6 (amended) at a concrete one-row table. -/
theorem claim6_last_percent_amended_witness :
    ((segRows [⟨some "W", none, some 4⟩]).map (fun t => t.2.1)).getLast? =
      some (some 100) :=
  claim6_last_percent_amended [⟨some "W", none, some 4⟩] (by simp)
    (by intro r hr; rw [List.mem_singleton.mp hr]; rfl)
    (by norm_num [totalSWT, List.filterMap_cons])

end RevenueAnalyser
